import Mathlib

/-!
Shallow embedding of the kFeed background ingestion subsystem.

Sources embedded: the `fetchFeedsWorker` goroutine of `main.go` (the
scheduler loop and its inner `fetchAndMarkDone` worker closure),
`fetchRSSFeedData`, `parseDate` with `dateLayouts`, and the SQL query
`GetNextFeedsToFetch` from `sql/queries/feeds.sql`.

External effects (HTTP, `xml.Unmarshal`, `time.Parse`, the database) are
modelled as oracles supplied to the embedded functions: the embedding
records every call the Go code makes as an `Event` in a trace, and oracle
answers stand for what the external world returned on that call.  Where the
Go code discards a returned error (it ignores both results of
`cfg.DB.MarkFeedFetched` and of `cfg.DB.AddPost`), the embedded function
correspondingly does not consult the oracle answer.
-/

namespace KFeed

/-- `Item` struct of `main.go`: one `<item>` of an RSS document. -/
structure Item where
  title : String
  link : String
  description : String
  pubDate : String
  deriving DecidableEq, Repr

/-- `Channel` struct of `main.go`. -/
structure Channel where
  title : String
  link : String
  description : String
  items : List Item
  deriving DecidableEq, Repr

/-- `Rss` struct of `main.go`. -/
structure Rss where
  channel : Channel
  deriving DecidableEq, Repr

/-- A row of the `feeds` table (`database.Feed`): id, name, url, owner and
the nullable `last_fetched_at` column (`none` = never fetched).  UUIDs and
timestamps are abstracted to `Nat`. -/
structure Feed where
  id : Nat
  name : String
  url : String
  userID : Nat
  lastFetchedAt : Option Nat
  deriving DecidableEq, Repr

/-- `database.AddPostParams` as assembled by the worker: nullable columns
are `Option`s (`sql.NullString` / `sql.NullTime` with `Valid = false`
becomes `none`). The fresh `uuid.New()` identity is not modelled. -/
structure AddPostParams where
  title : String
  url : String
  description : Option String
  publishedAt : Option Nat
  feedID : Nat
  deriving DecidableEq, Repr

/-- Outcome of reading a response body (`io.ReadAll`). -/
inductive BodyResult where
  | ok (data : String)
  | readError (msg : String)
  deriving DecidableEq, Repr

/-- An HTTP response as `fetchRSSFeedData` inspects it: status code,
the `content-type` header value, and the body. -/
structure HttpResponse where
  statusCode : Nat
  contentType : String
  body : BodyResult
  deriving DecidableEq, Repr

/-- Outcome of `http.Get`: either a transport error or a response. -/
inductive HttpResult where
  | netError (msg : String)
  | response (resp : HttpResponse)
  deriving DecidableEq, Repr

/-- `fetchRSSFeedData` of `main.go`.  `xmlUnmarshal` is the oracle for
`xml.Unmarshal`; `http` is the already-performed `http.Get url` outcome.
The checks run in source order: transport error, then status code, then
`content-type` header, then body read, then XML decoding. -/
def fetchRSSFeedData (xmlUnmarshal : String → Except String Rss)
    (http : HttpResult) : Except String Rss :=
  match http with
  | .netError msg => .error ("GET error: " ++ msg)
  | .response resp =>
    if resp.statusCode ≠ 200 then
      .error ("status error: " ++ toString resp.statusCode)
    else if resp.contentType ≠ "application/xml" then
      .error ("invalid response content-type: " ++ resp.contentType)
    else
      match resp.body with
      | .readError msg => .error ("read body: " ++ msg)
      | .ok data =>
        match xmlUnmarshal data with
        | .error msg => .error ("XML decode error: " ++ msg)
        | .ok rssFeed => .ok rssFeed

/-- `dateLayouts` of `main.go`: `time.RFC1123`, `time.RFC1123Z`, and one
literal layout (which happens to repeat RFC1123). -/
def dateLayouts : List String :=
  ["Mon, 02 Jan 2006 15:04:05 MST",
   "Mon, 02 Jan 2006 15:04:05 -0700",
   "Mon, 02 Jan 2006 15:04:05 MST"]

/-- `parseDate` of `main.go`, generic in the `time.Parse` oracle
`tryParse layout dateStr` (`some t` = parsed, `none` = error).  Tries the
layouts in order and returns the first success; if every layout fails the
Go function returns the last error, embedded as `none`. -/
def parseDate (tryParse : String → String → Option Nat)
    (layouts : List String) (dateStr : String) : Option Nat :=
  match layouts with
  | [] => none
  | layout :: rest =>
    match tryParse layout dateStr with
    | some t => some t
    | none => parseDate tryParse rest dateStr

/-- The per-item normalization performed inline in the worker loop of
`fetchAndMarkDone`: empty description becomes a NULL description, and the
publish date is NULL unless the string is non-empty and `parseDate`
succeeds on it. -/
def normalizePost (tryParse : String → String → Option Nat)
    (post : Item) (feedID : Nat) : AddPostParams :=
  let postDescription : Option String :=
    if post.description ≠ "" then some post.description else none
  let postPubDate : Option Nat :=
    if post.pubDate ≠ "" then parseDate tryParse dateLayouts post.pubDate
    else none
  { title := post.title
    url := post.link
    description := postDescription
    publishedAt := postPubDate
    feedID := feedID }

/-- The observable actions of the scheduler loop and its workers, in the
order the Go code performs them.  `log…` events are the `fmt.Printf` /
`fmt.Println` lines. -/
inductive Event where
  | tick
  | fetchURL (url : String)
  | markFeedFetched (id : Nat)
  | addPost (p : AddPostParams)
  | logFetchError (url msg : String)
  | logFetched (title : String) (count : Nat)
  | logBatchError (msg : String)
  | logFetchingCount (count : Nat)
  | logFinished
  deriving DecidableEq, Repr

/-- A storage-insert failure, distinguishing the duplicate-key rejection
from other causes. -/
inductive InsertError where
  | duplicateKey (msg : String)
  | other (msg : String)
  deriving DecidableEq, Repr

/-- The external world one worker interacts with: the HTTP client,
`xml.Unmarshal`, and `time.Parse`. -/
structure World where
  http : String → HttpResult
  xmlUnmarshal : String → Except String Rss
  tryParse : String → String → Option Nat

/-- Oracle for the database calls whose results the worker makes:
what `MarkFeedFetched` and `AddPost` would return.  The Go worker ignores
both return values, so these answers never influence the trace. -/
structure DBOracle where
  markFetchedResult : Nat → Except String Unit
  addPostResult : AddPostParams → Except InsertError Unit

/-- The `fetchAndMarkDone` closure of `fetchFeedsWorker` in `main.go`, as
the trace of actions it performs for one feed: perform the fetch, call
`MarkFeedFetched` unconditionally (its result, `db.markFetchedResult`, is
discarded exactly as the Go code discards it), then either log the fetch
error and return, or log success and call `AddPost` once per item in
order (each `AddPost` result, `db.addPostResult`, likewise discarded). -/
def fetchAndMarkDone (w : World) (db : DBOracle) (feed : Feed) :
    List Event :=
  let fetchResult := fetchRSSFeedData w.xmlUnmarshal (w.http feed.url)
  Event.fetchURL feed.url :: Event.markFeedFetched feed.id ::
    (match fetchResult with
     | .error msg => [Event.logFetchError feed.url msg]
     | .ok rss =>
       Event.logFetched rss.channel.title rss.channel.items.length ::
         rss.channel.items.map
           (fun post => Event.addPost (normalizePost w.tryParse post feed.id)))

/-- The ordering the SQL `ORDER BY last_fetched_at NULLS FIRST` of
`GetNextFeedsToFetch` sorts by: ascending on `last_fetched_at` with NULL
before every timestamp. -/
def feedLe (a b : Feed) : Prop :=
  match a.lastFetchedAt, b.lastFetchedAt with
  | none, _ => True
  | some _, none => False
  | some x, some y => x ≤ y

instance : DecidableRel feedLe := fun a b => by
  unfold feedLe
  cases a.lastFetchedAt <;> cases b.lastFetchedAt <;> infer_instance

instance : IsTotal Feed feedLe where
  total a b := by
    unfold feedLe
    cases a.lastFetchedAt <;> cases b.lastFetchedAt <;> simp
    exact Nat.le_total _ _

instance : IsTrans Feed feedLe where
  trans a b c hab hbc := by
    unfold feedLe at *
    cases ha : a.lastFetchedAt <;> cases hb : b.lastFetchedAt <;>
      cases hc : c.lastFetchedAt <;> simp_all
    exact Nat.le_trans hab hbc

/-- The `GetNextFeedsToFetch` query of `sql/queries/feeds.sql`:
`SELECT * FROM feeds ORDER BY last_fetched_at NULLS FIRST LIMIT $1`,
over the table contents `feeds`. -/
def getNextFeedsToFetch (feeds : List Feed) (limit : Nat) : List Feed :=
  (List.insertionSort feedLe feeds).take limit

/-- The per-tick external world of the scheduler loop: the `World` and
`DBOracle` its workers run against, plus the reply of the
`GetNextFeedsToFetch` database call (which may itself fail). -/
structure TickWorld where
  world : World
  db : DBOracle
  feedsResult : Except String (List Feed)

/-- Number of freshness-marking writes one whole tick performs: one per
selected feed, zero when the batch query failed. -/
def tickMarks (tw : TickWorld) : Nat :=
  match tw.feedsResult with
  | .error _ => 0
  | .ok feeds => feeds.length

/-- The traces the scheduler loop `fetchFeedsWorker` of `main.go` can
produce over a finite list of ticks.  Each iteration receives a tick from
the ticker channel, asks for the batch, and either logs the query error
and continues, or launches one `fetchAndMarkDone` goroutine per feed and
blocks on `waitGroup.Wait()` before printing the final line and looping.
The goroutines run concurrently, so the batch segment `seg` is any
interleaving of the worker traces: a permutation of their concatenation
in which the trace of each worker still occurs in order (as a sublist).
`waitGroup.Wait()` is reflected in `seg` containing the full trace of
every worker
in full, strictly before the trailing `logFinished` and everything after
it. -/
inductive SchedulerRun : List TickWorld → List Event → Prop where
  | nil : SchedulerRun [] []
  | tickErr {tw : TickWorld} {tws : List TickWorld} {msg : String}
      {rest : List Event} :
      tw.feedsResult = Except.error msg →
      SchedulerRun tws rest →
      SchedulerRun (tw :: tws) (Event.tick :: Event.logBatchError msg :: rest)
  | tickOk {tw : TickWorld} {tws : List TickWorld} {feeds : List Feed}
      {seg rest : List Event} :
      tw.feedsResult = Except.ok feeds →
      seg.Perm (feeds.map (fetchAndMarkDone tw.world tw.db)).flatten →
      (∀ f ∈ feeds, List.Sublist (fetchAndMarkDone tw.world tw.db f) seg) →
      SchedulerRun tws rest →
      SchedulerRun (tw :: tws)
        (Event.tick :: Event.logFetchingCount feeds.length ::
          (seg ++ Event.logFinished :: rest))

/-- Recognizes the ticker-receive event. -/
def isTick : Event → Bool
  | .tick => true
  | _ => false

/-- Recognizes a `MarkFeedFetched` call. -/
def isMark : Event → Bool
  | .markFeedFetched _ => true
  | _ => false

/-- Recognizes an `AddPost` call. -/
def isAddPost : Event → Bool
  | .addPost _ => true
  | _ => false

/-- Recognizes the error-log lines (`Error fetching %v: %v` per feed and
`Error fetching feeds: %v` per tick) — the only places the worker or the
loop reports a failure. -/
def isErrorLog : Event → Bool
  | .logFetchError _ _ => true
  | .logBatchError _ => true
  | _ => false

/-- Extracts the parameters of an `AddPost` call. -/
def eventAddPost : Event → Option AddPostParams
  | .addPost p => some p
  | _ => none

/-! ### Basic worker-trace lemmas -/

/-- Every worker trace contains exactly one `MarkFeedFetched` call. -/
lemma countP_worker_mark (w : World) (db : DBOracle) (feed : Feed) :
    (fetchAndMarkDone w db feed).countP isMark = 1 := by
  unfold fetchAndMarkDone
  cases fetchRSSFeedData w.xmlUnmarshal (w.http feed.url) with
  | error msg => simp [List.countP_cons, isMark]
  | ok rss =>
    simp [List.countP_cons, isMark, List.countP_map, Function.comp_def]

/-- Maps under a `filterMap` that always succeeds. -/
lemma filterMap_some_comp {α β : Type} (f : α → β) (l : List α) :
    l.filterMap (fun x => some (f x)) = l.map f := by
  induction l with
  | nil => rfl
  | cons a l ih => simp [List.filterMap_cons, ih]

/-- No event of a worker trace is the ticker receive. -/
lemma worker_no_tick (w : World) (db : DBOracle) (feed : Feed) :
    ∀ e ∈ fetchAndMarkDone w db feed, isTick e = false := by
  intro e he
  unfold fetchAndMarkDone at he
  cases hf : fetchRSSFeedData w.xmlUnmarshal (w.http feed.url) with
  | error msg =>
    rw [hf] at he
    simp at he
    rcases he with h | h | h <;> subst h <;> rfl
  | ok rss =>
    rw [hf] at he
    simp at he
    rcases he with h | h | h | ⟨p, _, h⟩ <;> subst h <;> rfl

/-- The `AddPost` calls of a worker trace, in order: the normalized items
of the parsed document when the fetch succeeded, nothing otherwise. -/
lemma worker_addPosts (w : World) (db : DBOracle) (feed : Feed) :
    (fetchAndMarkDone w db feed).filterMap eventAddPost =
      match fetchRSSFeedData w.xmlUnmarshal (w.http feed.url) with
      | .error _ => []
      | .ok rss =>
        rss.channel.items.map (fun post => normalizePost w.tryParse post feed.id) := by
  unfold fetchAndMarkDone
  cases fetchRSSFeedData w.xmlUnmarshal (w.http feed.url) with
  | error msg => simp [eventAddPost]
  | ok rss =>
    simp only [List.filterMap_cons, eventAddPost, List.filterMap_map,
      Function.comp_def]
    exact filterMap_some_comp _ _

/-! ### C1, C10, C3, C8 -/

/-- C1: for every ingestion attempt on a Source, the worker performs
exactly one freshness-marking write (`MarkFeedFetched`) before returning,
whatever the fetch oracle, the XML decoder, the date parser and the
database answer — in particular independently of fetch/parse success. -/
theorem worker_marks_exactly_once (w : World) (db : DBOracle) (feed : Feed) :
    (fetchAndMarkDone w db feed).countP isMark = 1 :=
  countP_worker_mark w db feed

/-- C10: the result of the freshness-marking write is discarded: the
worker trace is identical whatever `MarkFeedFetched` returns, so even a
failing `MarkFeedFetched` is neither retried, nor reported, nor aborts the
worker — the trace still contains its single mark attempt. -/
theorem markFetched_result_discarded (w : World)
    (mark mark2 : Nat → Except String Unit)
    (ap : AddPostParams → Except InsertError Unit) (feed : Feed) :
    fetchAndMarkDone w ⟨mark, ap⟩ feed = fetchAndMarkDone w ⟨mark2, ap⟩ feed ∧
      (fetchAndMarkDone w ⟨mark, ap⟩ feed).countP isMark = 1 :=
  ⟨rfl, countP_worker_mark w ⟨mark, ap⟩ feed⟩

/-! ### Concrete worlds for witnesses and counterexamples -/

/- The marker constants below are defined first; witnesses that apply the
claim theorems at them follow their theorems. -/

/-- A concrete item whose publish date matches the first layout. -/
def cItemA : Item :=
  ⟨"post-a", "http://example.org/a", "alpha", "Mon, 02 Jan 2006 15:04:05 MST"⟩

/-- A concrete item with empty description and an unparseable date. -/
def cItemB : Item := ⟨"post-b", "http://example.org/b", "", "not-a-date"⟩

/-- A concrete parsed document with two items. -/
def cRss : Rss := ⟨⟨"example-feed", "http://example.org", "demo", [cItemA, cItemB]⟩⟩

/-- A concrete `time.Parse` oracle: succeeds exactly when the date string
equals the layout string. -/
def cTry : String → String → Option Nat :=
  fun layout s => if s = layout then some 1136214245 else none

/-- A concrete HTTP client returning a well-formed 200 XML response. -/
def cHttp : String → HttpResult :=
  fun _ => .response ⟨200, "application/xml", .ok "rawxml"⟩

/-- A concrete world whose fetch and parse always succeed with `cRss`. -/
def cWorld : World := ⟨cHttp, fun _ => .ok cRss, cTry⟩

/-- A database oracle on which every call succeeds. -/
def cDB : DBOracle := ⟨fun _ => .ok (), fun _ => .ok ()⟩

/-- A database oracle on which the freshness write fails and every insert
fails with a non-duplicate storage error. -/
def cDBFail : DBOracle :=
  ⟨fun _ => .error "mark failed", fun _ => .error (.other "disk full")⟩

/-- A concrete never-fetched feed row. -/
def cFeed : Feed := ⟨7, "example", "http://example.org/rss", 3, none⟩

/-- Witness for C1 at a concrete failed-fetch world: still exactly one
freshness-marking write. -/
theorem worker_marks_exactly_once_witness :
    (fetchAndMarkDone ⟨fun _ => HttpResult.netError "timeout",
        fun _ => Except.ok cRss, cTry⟩ cDBFail cFeed).countP isMark = 1 :=
  worker_marks_exactly_once ⟨fun _ => HttpResult.netError "timeout",
    fun _ => Except.ok cRss, cTry⟩ cDBFail cFeed

/-- Witness for C10 at a concrete input whose `MarkFeedFetched` fails. -/
theorem markFetched_result_discarded_witness :
    fetchAndMarkDone cWorld ⟨cDBFail.markFetchedResult, cDB.addPostResult⟩
          cFeed =
        fetchAndMarkDone cWorld ⟨cDB.markFetchedResult, cDB.addPostResult⟩
          cFeed ∧
      (fetchAndMarkDone cWorld ⟨cDBFail.markFetchedResult, cDB.addPostResult⟩
          cFeed).countP isMark = 1 :=
  markFetched_result_discarded cWorld cDBFail.markFetchedResult
    cDB.markFetchedResult cDB.addPostResult cFeed

/-! ### C8 -/

/-- C8: the normalizer stores an empty description string as NULL
(absent), a non-empty one verbatim as present, and never stores a present
empty value. -/
theorem description_empty_becomes_null
    (tp : String → String → Option Nat) (post : Item) (fid : Nat) :
    (normalizePost tp post fid).description =
        (if post.description = "" then none else some post.description) ∧
      (normalizePost tp post fid).description ≠ some "" := by
  unfold normalizePost
  by_cases hd : post.description = "" <;> simp [hd]

/-- Witness for C8 at the concrete items: empty description stored as
NULL, non-empty stored verbatim. -/
theorem description_empty_becomes_null_witness :
    ((normalizePost cTry cItemB 7).description =
          (if cItemB.description = "" then none else some cItemB.description) ∧
        (normalizePost cTry cItemB 7).description ≠ some "") ∧
      (normalizePost cTry cItemA 7).description = some "alpha" :=
  ⟨description_empty_becomes_null cTry cItemB 7, rfl⟩

/-! ### C3 -/

/-- C3 as stated is refuted on this input: both inserts of the batch fail
with a non-duplicate storage error (the oracle answers `disk full`), both
insert attempts are made, yet the trace contains no error-log line at all
— the failure is silently discarded, not logged. -/
theorem insert_failure_not_logged :
    cDBFail.addPostResult (normalizePost cWorld.tryParse cItemA cFeed.id) =
        Except.error (InsertError.other "disk full") ∧
      (fetchAndMarkDone cWorld cDBFail cFeed).countP isAddPost = 2 ∧
      (fetchAndMarkDone cWorld cDBFail cFeed).countP isErrorLog = 0 :=
  ⟨rfl, rfl, rfl⟩

/-- C3 (amended): a storage-insert failure for one item is non-fatal: the
worker trace is identical whatever `AddPost` returns (so a duplicate-key
or any other rejection is a skip of that item, is never raised to the
scheduler, and leaves every sibling insert attempted — one per parsed
item); but no insert failure is logged: on a successful fetch the trace
contains no error-log event whatsoever. -/
theorem addPost_failure_nonfatal (w : World)
    (mark : Nat → Except String Unit)
    (ap ap2 : AddPostParams → Except InsertError Unit) (feed : Feed) :
    fetchAndMarkDone w ⟨mark, ap⟩ feed = fetchAndMarkDone w ⟨mark, ap2⟩ feed ∧
      ∀ rss, fetchRSSFeedData w.xmlUnmarshal (w.http feed.url) = Except.ok rss →
        (fetchAndMarkDone w ⟨mark, ap⟩ feed).countP isAddPost =
            rss.channel.items.length ∧
          (fetchAndMarkDone w ⟨mark, ap⟩ feed).countP isErrorLog = 0 := by
  refine ⟨rfl, ?_⟩
  intro rss h
  unfold fetchAndMarkDone
  rw [h]
  constructor <;>
    simp [List.countP_cons, isAddPost, isErrorLog, List.countP_map,
      Function.comp_def]

/-- Witness for C3 (amended) at the concrete failing-oracle input. -/
theorem addPost_failure_nonfatal_witness :
    fetchRSSFeedData cWorld.xmlUnmarshal (cWorld.http cFeed.url) =
        Except.ok cRss ∧
      (fetchAndMarkDone cWorld ⟨cDB.markFetchedResult, cDBFail.addPostResult⟩
          cFeed).countP isAddPost = 2 := by
  have h := addPost_failure_nonfatal cWorld cDB.markFetchedResult
    cDBFail.addPostResult cDB.addPostResult cFeed
  exact ⟨rfl, ((h.2 cRss rfl).1).trans (by decide)⟩

/-! ### C9 -/

/-- C9: for a response with success status, the fetcher accepts only the
exact header value `application/xml`: any other value is rejected with the
content-type error even if the body would decode to a well-formed feed,
and on the exact value the fetch proceeds to the body and the XML
decoder. -/
theorem contentType_must_match_exactly (u : String → Except String Rss)
    (r : HttpResponse) (hs : r.statusCode = 200) :
    (r.contentType ≠ "application/xml" →
        fetchRSSFeedData u (HttpResult.response r) =
          Except.error ("invalid response content-type: " ++ r.contentType)) ∧
      (r.contentType = "application/xml" →
        fetchRSSFeedData u (HttpResult.response r) =
          match r.body with
          | .readError msg => Except.error ("read body: " ++ msg)
          | .ok data =>
            match u data with
            | .error msg => Except.error ("XML decode error: " ++ msg)
            | .ok rssFeed => Except.ok rssFeed) := by
  constructor <;> intro hc <;> simp [fetchRSSFeedData, hs, hc]

/-- Witness for C9: a well-formed feed served as `application/rss+xml` is
rejected with the content-type error. -/
theorem contentType_must_match_exactly_witness :
    fetchRSSFeedData (fun _ => Except.ok cRss)
        (HttpResult.response ⟨200, "application/rss+xml", .ok "rawxml"⟩) =
      Except.error ("invalid response content-type: " ++ "application/rss+xml") :=
  (contentType_must_match_exactly (fun _ => Except.ok cRss)
      ⟨200, "application/rss+xml", .ok "rawxml"⟩ rfl).1 (by decide)

/-! ### C6 -/

/-- The failure conditions of §4.1 of the spec, over the fetch world: a
network failure, a non-success status, a wrong content type, a body-read
failure, or (reported separately as a parse failure) malformed XML. -/
def FetchFailureCause (u : String → Except String Rss) (h : HttpResult) :
    Prop :=
  match h with
  | .netError _ => True
  | .response r =>
    r.statusCode ≠ 200 ∨ r.contentType ≠ "application/xml" ∨
      (∃ m, r.body = BodyResult.readError m) ∨
      (∃ d m, r.body = BodyResult.ok d ∧ u d = Except.error m)

/-- C6: the fetch of one source URL fails exactly when a network failure,
a non-success status, a wrong content type, a body-read failure or an XML
decode failure occurs; every error message is non-empty (it carries a
human-readable cause); and a success returns the document decoded from
the body of a 200 `application/xml` response. -/
theorem fetch_error_characterization (u : String → Except String Rss)
    (h : HttpResult) :
    ((∃ msg, fetchRSSFeedData u h = Except.error msg) ↔ FetchFailureCause u h)
      ∧ (∀ msg, fetchRSSFeedData u h = Except.error msg → 0 < msg.length)
      ∧ (∀ rssFeed, fetchRSSFeedData u h = Except.ok rssFeed →
          ∃ r d, h = HttpResult.response r ∧ r.statusCode = 200 ∧
            r.contentType = "application/xml" ∧ r.body = BodyResult.ok d ∧
            u d = Except.ok rssFeed) := by
  cases h with
  | netError m =>
    refine ⟨?_, ?_, ?_⟩
    · simp [fetchRSSFeedData, FetchFailureCause]
    · intro msg hmsg
      simp [fetchRSSFeedData] at hmsg
      subst hmsg
      simp [String.length_append]
      exact Or.inl (by decide)
    · intro rssFeed hr
      simp [fetchRSSFeedData] at hr
  | response r =>
    by_cases hs : r.statusCode = 200
    · by_cases hc : r.contentType = "application/xml"
      · cases hb : r.body with
        | readError m =>
          refine ⟨?_, ?_, ?_⟩
          · simp [fetchRSSFeedData, FetchFailureCause, hs, hc, hb]
          · intro msg hmsg
            simp [fetchRSSFeedData, hs, hc, hb] at hmsg
            subst hmsg
            simp [String.length_append]
            exact Or.inl (by decide)
          · intro rssFeed hr
            simp [fetchRSSFeedData, hs, hc, hb] at hr
        | ok d =>
          cases hu : u d with
          | error m =>
            refine ⟨?_, ?_, ?_⟩
            · simp [fetchRSSFeedData, FetchFailureCause, hs, hc, hb, hu]
            · intro msg hmsg
              simp [fetchRSSFeedData, hs, hc, hb, hu] at hmsg
              subst hmsg
              simp [String.length_append]
              exact Or.inl (by decide)
            · intro rssFeed hr
              simp [fetchRSSFeedData, hs, hc, hb, hu] at hr
          | ok rssFeed =>
            refine ⟨?_, ?_, ?_⟩
            · simp [fetchRSSFeedData, FetchFailureCause, hs, hc, hb, hu]
            · intro msg hmsg
              simp [fetchRSSFeedData, hs, hc, hb, hu] at hmsg
            · intro rssFeed2 hr
              simp [fetchRSSFeedData, hs, hc, hb, hu] at hr
              exact ⟨r, d, rfl, hs, hc, hb, by rw [hu, hr]⟩
      · refine ⟨?_, ?_, ?_⟩
        · simp [fetchRSSFeedData, FetchFailureCause, hs, hc]
        · intro msg hmsg
          simp [fetchRSSFeedData, hs, hc] at hmsg
          subst hmsg
          simp [String.length_append]
          exact Or.inl (by decide)
        · intro rssFeed hr
          simp [fetchRSSFeedData, hs, hc] at hr
    · refine ⟨?_, ?_, ?_⟩
      · simp [fetchRSSFeedData, FetchFailureCause, hs]
      · intro msg hmsg
        simp [fetchRSSFeedData, hs] at hmsg
        subst hmsg
        simp [String.length_append]
        exact Or.inl (by decide)
      · intro rssFeed hr
        simp [fetchRSSFeedData, hs] at hr

/-- Witness for C6 at a concrete 404 response: the fetch fails, the cause
holds, and the message is non-empty. -/
theorem fetch_error_characterization_witness :
    (∃ msg, fetchRSSFeedData (fun _ => Except.ok cRss)
        (HttpResult.response ⟨404, "application/xml", .ok "rawxml"⟩) =
          Except.error msg) ∧
      0 < ("status error: " ++ toString 404).length := by
  have h := fetch_error_characterization (fun _ => Except.ok cRss)
    (HttpResult.response ⟨404, "application/xml", .ok "rawxml"⟩)
  exact ⟨h.1.mpr (Or.inl (by decide)), h.2.1 _ rfl⟩

/-! ### C5 -/

/-- `parseDate` succeeds with `v` exactly when some layout parses the
string to `v` and every layout listed before it fails. -/
lemma parseDate_eq_some_iff (tp : String → String → Option Nat)
    (layouts : List String) (s : String) (v : Nat) :
    parseDate tp layouts s = some v ↔
      ∃ pre layout suf, layouts = pre ++ layout :: suf ∧ tp layout s = some v ∧
        ∀ l2 ∈ pre, tp l2 s = none := by
  induction layouts with
  | nil =>
    simp only [parseDate, false_iff, reduceCtorEq]
    rintro ⟨pre, layout, suf, heq, -, -⟩
    exact List.not_mem_nil layout (heq ▸ List.mem_append_right pre (List.mem_cons_self _ _))
  | cons l0 rest ih =>
    cases h0 : tp l0 s with
    | some t =>
      simp only [parseDate, h0]
      constructor
      · intro hv
        exact ⟨[], l0, rest, rfl, h0.trans hv, by simp⟩
      · rintro ⟨pre, layout, suf, heq, hl, hpre⟩
        cases pre with
        | nil =>
          simp only [List.nil_append, List.cons.injEq] at heq
          rw [← heq.1, h0] at hl
          exact hl
        | cons p0 pre2 =>
          simp only [List.cons_append, List.cons.injEq] at heq
          have hm := hpre p0 (List.mem_cons_self _ _)
          rw [← heq.1, h0] at hm
          exact absurd hm (by simp)
    | none =>
      simp only [parseDate, h0]
      rw [ih]
      constructor
      · rintro ⟨pre, layout, suf, heq, hl, hpre⟩
        refine ⟨l0 :: pre, layout, suf, by rw [heq, List.cons_append], hl, ?_⟩
        intro l2 hm
        rcases List.mem_cons.mp hm with h | h
        · rw [h]; exact h0
        · exact hpre l2 h
      · rintro ⟨pre, layout, suf, heq, hl, hpre⟩
        cases pre with
        | nil =>
          simp only [List.nil_append, List.cons.injEq] at heq
          rw [← heq.1, h0] at hl
          exact absurd hl (by simp)
        | cons p0 pre2 =>
          simp only [List.cons_append, List.cons.injEq] at heq
          refine ⟨pre2, layout, suf, heq.2, hl, ?_⟩
          intro l2 hm
          exact hpre l2 (List.mem_cons_of_mem p0 hm)

/-- `parseDate` fails exactly when every layout fails on the string. -/
lemma parseDate_eq_none_iff (tp : String → String → Option Nat)
    (layouts : List String) (s : String) :
    parseDate tp layouts s = none ↔ ∀ l ∈ layouts, tp l s = none := by
  induction layouts with
  | nil => simp [parseDate]
  | cons l0 rest ih =>
    cases h0 : tp l0 s with
    | some t =>
      rw [parseDate, h0]
      simp only [reduceCtorEq, false_iff]
      intro hall
      have := hall l0 (List.mem_cons_self _ _)
      rw [h0] at this
      exact absurd this (by simp)
    | none =>
      rw [parseDate, h0, ih]
      constructor
      · intro hall l2 hm
        rcases List.mem_cons.mp hm with h | h
        · rw [h]; exact h0
        · exact hall l2 h
      · intro hall l2 hm
        exact hall l2 (List.mem_cons_of_mem l0 hm)

/-- C5: the publish-date string is parsed by trying the configured
layouts in their listed order, the first success winning; when every
layout fails (or the string is empty) the normalized post carries an
absent publish date; and the worker still attempts one storage insert per
parsed item, so ingestion of the remaining items continues. -/
theorem publish_date_first_success_nonfatal
    (tp : String → String → Option Nat) (s : String) :
    (∀ v, parseDate tp dateLayouts s = some v ↔
        ∃ pre layout suf, dateLayouts = pre ++ layout :: suf ∧
          tp layout s = some v ∧ ∀ l2 ∈ pre, tp l2 s = none) ∧
      (parseDate tp dateLayouts s = none ↔ ∀ l ∈ dateLayouts, tp l s = none) ∧
      (∀ (post : Item) (fid : Nat), post.pubDate = s →
        (s = "" ∨ parseDate tp dateLayouts s = none) →
        (normalizePost tp post fid).publishedAt = none) ∧
      (∀ (w : World) (db : DBOracle) (feed : Feed) (rss : Rss),
        fetchRSSFeedData w.xmlUnmarshal (w.http feed.url) = Except.ok rss →
        ((fetchAndMarkDone w db feed).filterMap eventAddPost).length =
          rss.channel.items.length) := by
  refine ⟨fun v => parseDate_eq_some_iff tp dateLayouts s v,
    parseDate_eq_none_iff tp dateLayouts s, ?_, ?_⟩
  · intro post fid hps hfail
    unfold normalizePost
    rcases hfail with h | h
    · simp [hps, h]
    · by_cases he : post.pubDate = ""
      · simp [he]
      · simp [he, hps, h]
  · intro w db feed rss h
    rw [worker_addPosts, h]
    simp

/-- Witness for C5: the unparseable date of `cItemB` yields an absent
publish date while both items of the concrete feed are still inserted. -/
theorem publish_date_first_success_nonfatal_witness :
    cItemB.pubDate = "not-a-date" ∧
      ("not-a-date" = "" ∨ parseDate cTry dateLayouts "not-a-date" = none) ∧
      (normalizePost cTry cItemB 7).publishedAt = none ∧
      fetchRSSFeedData cWorld.xmlUnmarshal (cWorld.http cFeed.url) =
        Except.ok cRss ∧
      ((fetchAndMarkDone cWorld cDB cFeed).filterMap eventAddPost).length = 2 := by
  have h := publish_date_first_success_nonfatal cTry "not-a-date"
  refine ⟨rfl, Or.inr (by decide), h.2.2.1 cItemB 7 rfl (Or.inr (by decide)),
    rfl, (h.2.2.2 cWorld cDB cFeed cRss rfl).trans (by decide)⟩

/-! ### C4 -/

/-- The stage order C4 asserts: every freshness-marking event of the
trace occurs strictly after every storage-write event. -/
def MarkAfterStores (t : List Event) : Prop :=
  ∀ i j : Fin t.length, isMark (t.get i) = true → isAddPost (t.get j) = true →
    (j : Nat) < (i : Nat)

/-- The stage order the code implements: every freshness-marking event of
the trace occurs strictly before every storage-write event. -/
def MarkBeforeStores (t : List Event) : Prop :=
  ∀ i j : Fin t.length, isMark (t.get i) = true → isAddPost (t.get j) = true →
    (i : Nat) < (j : Nat)

/-- C4 as stated is refuted on a concrete successful ingestion: in the
trace of `fetchAndMarkDone` on a feed with two items, the single
`MarkFeedFetched` event precedes both `AddPost` events, so the
freshness-marking write does not happen after the item storage writes. -/
theorem freshness_mark_not_after_stores :
    ¬ MarkAfterStores (fetchAndMarkDone cWorld cDB cFeed) := by
  unfold MarkAfterStores
  decide

/-- The worker trace always starts with the fetch followed immediately by
the freshness mark, and no later event is a mark. -/
lemma worker_shape (w : World) (db : DBOracle) (feed : Feed) :
    ∃ rest, fetchAndMarkDone w db feed =
        Event.fetchURL feed.url :: Event.markFeedFetched feed.id :: rest ∧
      ∀ e ∈ rest, isMark e = false := by
  unfold fetchAndMarkDone
  cases hf : fetchRSSFeedData w.xmlUnmarshal (w.http feed.url) with
  | error msg =>
    refine ⟨[Event.logFetchError feed.url msg], rfl, ?_⟩
    intro e he
    simp at he
    subst he
    rfl
  | ok rss =>
    refine ⟨_, rfl, ?_⟩
    intro e he
    simp at he
    rcases he with h | ⟨p, _, h⟩ <;> subst h <;> rfl

/-- C4 (amended): within one worker the stages are strictly sequential,
but in the order fetch, then parse, then freshness-mark, then per-item
normalize-and-store in item order: the trace opens with the fetch and the
freshness mark (performed right after the fetch/parse call and before any
storage write), no other mark occurs, every mark precedes every storage
write, and the storage writes are the parsed items normalized in listed
order. -/
theorem stages_fetch_parse_mark_store (w : World) (db : DBOracle)
    (feed : Feed) :
    (∃ rest, fetchAndMarkDone w db feed =
        Event.fetchURL feed.url :: Event.markFeedFetched feed.id :: rest ∧
        ∀ e ∈ rest, isMark e = false) ∧
      MarkBeforeStores (fetchAndMarkDone w db feed) ∧
      (fetchAndMarkDone w db feed).filterMap eventAddPost =
        (match fetchRSSFeedData w.xmlUnmarshal (w.http feed.url) with
         | .error _ => []
         | .ok rss =>
           rss.channel.items.map
             (fun post => normalizePost w.tryParse post feed.id)) := by
  obtain ⟨rest, heq, hrest⟩ := worker_shape w db feed
  refine ⟨⟨rest, heq, hrest⟩, ?_, worker_addPosts w db feed⟩
  unfold MarkBeforeStores
  rw [heq]
  rintro ⟨i, hi⟩ ⟨j, hj⟩ hm ha
  simp only
  match i, hi, hm with
  | 0, hi, hm => exact absurd hm (by simp [isMark])
  | 1, hi, hm =>
    match j, hj, ha with
    | 0, hj, ha => exact absurd ha (by simp [isAddPost])
    | 1, hj, ha => exact absurd ha (by simp [isAddPost])
    | n + 2, hj, ha => omega
  | n + 2, hi, hm =>
    have hmem : (Event.fetchURL feed.url :: Event.markFeedFetched feed.id ::
        rest).get ⟨n + 2, hi⟩ ∈ rest :=
      List.get_mem rest n (by simpa using hi)
    rw [hrest _ hmem] at hm
    exact absurd hm (by simp)

/-- Witness for C4 (amended) at the concrete two-item ingestion. -/
theorem stages_fetch_parse_mark_store_witness :
    MarkBeforeStores (fetchAndMarkDone cWorld cDB cFeed) :=
  (stages_fetch_parse_mark_store cWorld cDB cFeed).2.1

/-! ### C2 -/

/-- C2: for every batch size of at least one, the stale-source selection
returns feeds in ascending freshness order with NULL before any
timestamp; whenever a non-null feed is selected every null feed of the
table is also selected; and within the selection every null feed occupies
an earlier position than every non-null feed. -/
theorem stale_selection_nulls_first (feeds : List Feed) (limit : Nat)
    (hl : 1 ≤ limit) :
    List.Sorted feedLe (getNextFeedsToFetch feeds limit) ∧
      (∀ g ∈ getNextFeedsToFetch feeds limit, g.lastFetchedAt ≠ none →
        ∀ f ∈ feeds, f.lastFetchedAt = none →
          f ∈ getNextFeedsToFetch feeds limit) ∧
      (∀ i j : Fin (getNextFeedsToFetch feeds limit).length,
        ((getNextFeedsToFetch feeds limit).get i).lastFetchedAt = none →
        ((getNextFeedsToFetch feeds limit).get j).lastFetchedAt ≠ none →
        (i : Nat) < (j : Nat)) := by
  have hsorted : List.Sorted feedLe (List.insertionSort feedLe feeds) :=
    List.sorted_insertionSort feedLe feeds
  have hsortedTake : List.Sorted feedLe (getNextFeedsToFetch feeds limit) :=
    hsorted.sublist (List.take_sublist _ _)
  refine ⟨hsortedTake, ?_, ?_⟩
  · intro g hg hgsome f hf hfnone
    by_contra hnot
    have hfs : f ∈ List.insertionSort feedLe feeds :=
      ((List.perm_insertionSort feedLe feeds).mem_iff).mpr hf
    have hsplit := List.take_append_drop limit (List.insertionSort feedLe feeds)
    have hfd : f ∈ (List.insertionSort feedLe feeds).drop limit := by
      rcases List.mem_append.mp (show f ∈ (List.insertionSort feedLe feeds).take
          limit ++ (List.insertionSort feedLe feeds).drop limit by
        rw [hsplit]; exact hfs) with h | h
      · exact absurd h hnot
      · exact h
    have hpw : List.Pairwise feedLe
        ((List.insertionSort feedLe feeds).take limit ++
          (List.insertionSort feedLe feeds).drop limit) := by
      rw [hsplit]
      exact hsorted
    have hrel := (List.pairwise_append.mp hpw).2.2 g hg f hfd
    rcases hgs : g.lastFetchedAt with _ | x
    · exact hgsome hgs
    · unfold feedLe at hrel
      rw [hgs, hfnone] at hrel
      exact hrel
  · intro i j hinone hjsome
    rcases Nat.lt_trichotomy (i : Nat) (j : Nat) with h | h | h
    · exact h
    · exfalso
      have hij : i = j := Fin.ext h
      rw [hij] at hinone
      exact hjsome hinone
    · exfalso
      have hrel := List.pairwise_iff_get.mp hsortedTake j i h
      rcases hjs : ((getNextFeedsToFetch feeds limit).get j).lastFetchedAt
          with _ | x
      · exact hjsome hjs
      · unfold feedLe at hrel
        rw [hjs, hinone] at hrel
        exact hrel

/-- Witness for C2 on a concrete two-feed table with batch size 1. -/
theorem stale_selection_nulls_first_witness :
    1 ≤ 1 ∧
      (List.Sorted feedLe (getNextFeedsToFetch
          [⟨1, "a", "u1", 0, some 5⟩, ⟨2, "b", "u2", 0, none⟩] 1) ∧
        (∀ g ∈ getNextFeedsToFetch
            [⟨1, "a", "u1", 0, some 5⟩, ⟨2, "b", "u2", 0, none⟩] 1,
          g.lastFetchedAt ≠ none →
          ∀ f ∈ ([⟨1, "a", "u1", 0, some 5⟩, ⟨2, "b", "u2", 0, none⟩] :
              List Feed), f.lastFetchedAt = none →
            f ∈ getNextFeedsToFetch
              [⟨1, "a", "u1", 0, some 5⟩, ⟨2, "b", "u2", 0, none⟩] 1) ∧
        (∀ i j : Fin (getNextFeedsToFetch
            [⟨1, "a", "u1", 0, some 5⟩, ⟨2, "b", "u2", 0, none⟩] 1).length,
          ((getNextFeedsToFetch
            [⟨1, "a", "u1", 0, some 5⟩, ⟨2, "b", "u2", 0, none⟩] 1).get
              i).lastFetchedAt = none →
          ((getNextFeedsToFetch
            [⟨1, "a", "u1", 0, some 5⟩, ⟨2, "b", "u2", 0, none⟩] 1).get
              j).lastFetchedAt ≠ none →
          (i : Nat) < (j : Nat))) :=
  ⟨Nat.le_refl 1, stale_selection_nulls_first
    [⟨1, "a", "u1", 0, some 5⟩, ⟨2, "b", "u2", 0, none⟩] 1 (Nat.le_refl 1)⟩

/-! ### C7 -/

/-- A list summing a map of ones has its length as sum. -/
lemma sum_map_one {α : Type} (l : List α) :
    (l.map (fun _ => (1 : Nat))).sum = l.length := by
  induction l with
  | nil => rfl
  | cons a l ih => simp [ih, Nat.add_comm]

/-- Splitting a concatenation at a tick that cannot lie in the left
part: the split point must fall in the right part. -/
lemma split_after_no_tick :
    ∀ (body p rest q : List Event),
      body ++ rest = p ++ Event.tick :: q →
      (∀ e ∈ body, isTick e = false) →
      ∃ r, p = body ++ r ∧ rest = r ++ Event.tick :: q := by
  intro body
  induction body with
  | nil =>
    intro p rest q h _
    exact ⟨p, rfl, by simpa using h⟩
  | cons b bt ih =>
    intro p rest q h hfree
    cases p with
    | nil =>
      simp only [List.nil_append, List.cons_append, List.cons.injEq] at h
      have hb := hfree b (List.mem_cons_self _ _)
      rw [h.1] at hb
      exact absurd hb (by simp [isTick])
    | cons p0 pt =>
      simp only [List.cons_append, List.cons.injEq] at h
      obtain ⟨hb, hrest⟩ := h
      obtain ⟨r, hp, hr⟩ :=
        ih pt rest q hrest (fun e he => hfree e (List.mem_cons_of_mem b he))
      exact ⟨r, by rw [← hb, hp, List.cons_append], hr⟩

/-- No event of a batch segment is the ticker receive. -/
lemma seg_no_tick {w : World} {db : DBOracle} {feeds : List Feed}
    {seg : List Event}
    (hperm : seg.Perm (feeds.map (fetchAndMarkDone w db)).flatten) :
    ∀ e ∈ seg, isTick e = false := by
  intro e he
  have hm : e ∈ (feeds.map (fetchAndMarkDone w db)).flatten :=
    hperm.mem_iff.mp he
  rcases List.mem_flatten.mp hm with ⟨l, hl, hel⟩
  rcases List.mem_map.mp hl with ⟨f, _, rfl⟩
  exact worker_no_tick w db f e hel

/-- A batch segment carries exactly one freshness-marking write per
selected feed. -/
lemma seg_mark_count {w : World} {db : DBOracle} {feeds : List Feed}
    {seg : List Event}
    (hperm : seg.Perm (feeds.map (fetchAndMarkDone w db)).flatten) :
    seg.countP isMark = feeds.length := by
  rw [hperm.countP_eq, List.countP_flatten, List.map_map]
  have hmap : feeds.map (List.countP isMark ∘ fetchAndMarkDone w db) =
      feeds.map (fun _ => (1 : Nat)) :=
    List.map_congr_left (fun f _ => countP_worker_mark w db f)
  rw [hmap, sum_map_one]

/-- C7: the scheduler loop serializes batches.  In every trace the loop
can produce, every prefix ending just before a ticker receive contains
exactly the freshness-marking writes of all the fully completed previous
iterations (one per feed of every earlier successful batch): no batch
work, however its concurrent workers interleave, ever crosses into the
next tick, because the loop joins all launched workers before waiting
again. -/
theorem scheduler_serializes_batches (tws : List TickWorld)
    (trace : List Event) (hrun : SchedulerRun tws trace) :
    ∀ p q, trace = p ++ Event.tick :: q →
      p.countP isMark = ((tws.take (p.countP isTick)).map tickMarks).sum := by
  induction hrun with
  | nil =>
    intro p q hpq
    simp at hpq
  | tickErr herr hrun2 ih =>
    rename_i tw tws2 msg rest
    intro p q hpq
    cases p with
    | nil => simp
    | cons e p2 =>
      simp only [List.cons_append, List.cons.injEq] at hpq
      obtain ⟨he, hpq2⟩ := hpq
      cases p2 with
      | nil =>
        simp only [List.nil_append, List.cons.injEq] at hpq2
        exact absurd hpq2.1 (by simp)
      | cons e2 p3 =>
        simp only [List.cons_append, List.cons.injEq] at hpq2
        obtain ⟨he2, hpq3⟩ := hpq2
        have hihr := ih p3 q hpq3
        rw [← he, ← he2]
        simp [List.countP_cons, isMark, isTick, tickMarks, herr,
          List.take_succ_cons, hihr]
  | tickOk hok hperm hsub hrun2 ih =>
    rename_i tw tws2 feeds seg rest
    intro p q hpq
    cases p with
    | nil => simp
    | cons e p2 =>
      simp only [List.cons_append, List.cons.injEq] at hpq
      obtain ⟨he, hpq2⟩ := hpq
      cases p2 with
      | nil =>
        simp only [List.nil_append, List.cons.injEq] at hpq2
        exact absurd hpq2.1 (by simp)
      | cons e2 p3 =>
        simp only [List.cons_append, List.cons.injEq] at hpq2
        obtain ⟨he2, hpq3⟩ := hpq2
        obtain ⟨r, hp3, hrest2⟩ :=
          split_after_no_tick (seg ++ [Event.logFinished]) p3 rest q
            (by rw [List.append_assoc, List.singleton_append]; exact hpq3)
            (by
              intro e3 he3
              rcases List.mem_append.mp he3 with h | h
              · exact seg_no_tick hperm e3 h
              · simp at h
                subst h
                rfl)
        have hihr := ih r q hrest2
        have hsegT : seg.countP isTick = 0 :=
          List.countP_eq_zero.mpr
            (fun e3 he3 => by simp [seg_no_tick hperm e3 he3])
        have hsegM : seg.countP isMark = feeds.length := seg_mark_count hperm
        rw [← he, ← he2, hp3]
        have hT : (Event.tick :: Event.logFetchingCount feeds.length ::
            ((seg ++ [Event.logFinished]) ++ r)).countP isTick =
              r.countP isTick + 1 := by
          simp [List.countP_cons, List.countP_append, isTick, hsegT]
        rw [hT, List.take_succ_cons]
        have hM : (Event.tick :: Event.logFetchingCount feeds.length ::
            ((seg ++ [Event.logFinished]) ++ r)).countP isMark =
              feeds.length + r.countP isMark := by
          simp [List.countP_cons, List.countP_append, isMark, hsegM]
        rw [hM]
        simp [List.map_cons, List.sum_cons, tickMarks, hok, hihr]

/-- A concrete tick whose batch query returns the single feed `cFeed`. -/
def cTick : TickWorld := ⟨cWorld, cDB, .ok [cFeed]⟩

/-- The trace of one concrete successful iteration on `cTick`. -/
def batchTrace1 : List Event :=
  Event.tick :: Event.logFetchingCount 1 ::
    (fetchAndMarkDone cWorld cDB cFeed ++ [Event.logFinished])

/-- The trace of two consecutive concrete iterations on `cTick`. -/
def twoTickTrace : List Event :=
  Event.tick :: Event.logFetchingCount 1 ::
    (fetchAndMarkDone cWorld cDB cFeed ++ Event.logFinished :: batchTrace1)

/-- The single-iteration trace is a scheduler run. -/
lemma cRun1 : SchedulerRun [cTick] batchTrace1 := by
  unfold batchTrace1
  refine @SchedulerRun.tickOk cTick [] [cFeed]
    (fetchAndMarkDone cWorld cDB cFeed) [] rfl (by simp [cTick]) ?_
    SchedulerRun.nil
  intro f hf
  simp at hf
  subst hf
  exact List.Sublist.refl _

/-- Witness for C7: applying the serialization theorem to the concrete
two-iteration run, split at the second ticker receive. -/
theorem scheduler_serializes_batches_witness :
    batchTrace1.countP isMark =
      (([cTick, cTick].take (batchTrace1.countP isTick)).map tickMarks).sum := by
  have hrun : SchedulerRun [cTick, cTick] twoTickTrace := by
    unfold twoTickTrace
    refine @SchedulerRun.tickOk cTick [cTick] [cFeed]
      (fetchAndMarkDone cWorld cDB cFeed) batchTrace1 rfl (by simp [cTick])
      ?_ cRun1
    intro f hf
    simp at hf
    subst hf
    exact List.Sublist.refl _
  exact scheduler_serializes_batches [cTick, cTick] twoTickTrace hrun
    batchTrace1
    (Event.logFetchingCount 1 ::
      (fetchAndMarkDone cWorld cDB cFeed ++ [Event.logFinished]))
    (by unfold twoTickTrace batchTrace1; simp)

end KFeed
